import Mathlib

set_option maxRecDepth 8192

/-!
Shallow embedding of `unit.py` (sanhoeeko/DimensionalAnalysis).

Modelling conventions:
* A dimension vector (`Unit` in the source; `Unit'` here, since `Unit` is
  taken by Lean's core) is a function `Fin 6 → ℚ`.  The source stores the
  exponents as floats, but every exponent ever produced is an exact
  rational, so ℚ is the exact-arithmetic model.
* Numeric SI values of constants are real numbers (`ℝ`); Python's `**` on
  floats is modelled by `Real.rpow`.
* `numpy` matrix inversion (`np.linalg.inv`), which raises on a singular
  matrix, is modelled by an explicit determinant test plus
  `det⁻¹ • adjugate`.
* Fallible operations (constructor `UnitSpace.__init__` raising
  `ValueError`, `IUnit.__mul__`/`__truediv__` raising on basis mismatch,
  numpy broadcasting errors in `value_convert`) return `Option`, with
  `none` for the raised exception.
-/

namespace DA

/-- Python `int(p)` applied to the exact rational value of a float:
truncation toward zero.  `Int.tdiv` is truncating division. -/
def ratTrunc (q : ℚ) : ℤ := Int.tdiv q.num (q.den : ℤ)

/-- Source: `class Unit`: a vector of six exponents over the ordered base
dimensions T, L, M, I, K, N. -/
structure Unit' where
  vec : Fin 6 → ℚ
deriving DecidableEq

/-- Source: `Unit.__mul__`: `Unit(self.vec + o.vec)` (numpy vector addition). -/
def umul (a b : Unit') : Unit' := ⟨a.vec + b.vec⟩

/-- Source: `Unit.__truediv__`: `Unit(self.vec - o.vec)`. -/
def udiv (a b : Unit') : Unit' := ⟨a.vec - b.vec⟩

/-- Source: `Unit.__pow__`: `Unit(self.vec * int(power))`.  The exponent argument
is annotated `int` in the source but Python does not enforce that; the
explicit `int(power)` truncates a non-integer power toward zero. -/
def upow (u : Unit') (p : ℚ) : Unit' := ⟨fun i => u.vec i * (ratTrunc p : ℚ)⟩

/-- Source: `basic_unit(idx)`: zero vector with a single 1 at `idx`. -/
def basicUnit (idx : Fin 6) : Unit' := ⟨fun j => if j = idx then 1 else 0⟩

/-- Source: `class Constant`: name, unit and SI value.  (`value_convert` in the
source stores an `IUnit` in the `unit` field; only its `.vec` is ever used
by further arithmetic, so the field holds the plain exponent vector.) -/
structure Constant where
  name : String
  unit : Unit'
  value : ℝ

/-- Source: `Constant.__mul__`: `Constant('', self.unit * o.unit, self.value * o.value)`. -/
noncomputable def cmul (a b : Constant) : Constant :=
  ⟨"", umul a.unit b.unit, a.value * b.value⟩

/-- Source: `Constant.__truediv__`: `Constant('', self.unit / o.unit, self.value / o.value)`. -/
noncomputable def cdiv (a b : Constant) : Constant :=
  ⟨"", udiv a.unit b.unit, a.value / b.value⟩

/-- Source: `Constant.__pow__`: `Constant('', self.unit ** power, self.value ** power)`.
The unit power truncates the exponent to an integer (`int(power)` inside
`Unit.__pow__`) while the value is raised to the full power. -/
noncomputable def cpow (c : Constant) (p : ℚ) : Constant :=
  ⟨"", upow c.unit p, c.value ^ (p : ℝ)⟩

/- The catalogue of base and induced units, exactly as in the source. -/

def T : Unit' := basicUnit 0
def L : Unit' := basicUnit 1
def M : Unit' := basicUnit 2
def I : Unit' := basicUnit 3
def K : Unit' := basicUnit 4
def N : Unit' := basicUnit 5

def Speed : Unit' := udiv L T
def Frequency : Unit' := upow T (-1)
def Hamilton : Unit' := umul M (upow Speed 2)
def Action : Unit' := umul Hamilton T
def Area : Unit' := upow L 2
def Volume : Unit' := upow L 3
def Dense : Unit' := upow Volume (-1)
def Momentum : Unit' := umul M Speed
def Force : Unit' := udiv Momentum T
def Gravity : Unit' := umul (umul (upow L 3) (upow M (-1))) (upow T (-2))
def Charge : Unit' := udiv (udiv (udiv I Speed) Area) Dense
def Temp : Unit' := K
def Entropy : Unit' := udiv Hamilton Temp
def Boltzmann : Unit' := udiv Entropy Temp
def NA : Unit' := upow N (-1)

/-! ## UnitSpace: the basis-change engine -/

/-- The rows `np.vstack(list(map(lambda x: x.unit.vec, constants)))`. -/
def rowsOf (cs : List Constant) : List (Fin 6 → ℚ) := cs.map fun c => c.unit.vec

/-- Source: `omitted = np.all(mat == 0, axis=0)`: column `j` is omitted when every
constant has exponent 0 there. -/
def omittedB (rows : List (Fin 6 → ℚ)) (j : Fin 6) : Bool :=
  rows.all fun r => decide (r j = 0)

/-- Source: `np.sum(omitted)`: how many of the six columns are all-zero. -/
def unusedCount (rows : List (Fin 6 → ℚ)) : ℕ :=
  ((List.finRange 6).filter fun j => omittedB rows j).length

/-- The running counter `cnt` of the fill loop: number of non-omitted
columns strictly before `i`. -/
def fillIdx (rows : List (Fin 6 → ℚ)) (i : Fin 6) : ℕ :=
  ((List.finRange 6).filter fun j => decide (j < i) && !omittedB rows j).length

/-- The 6×6 basis matrix.  For six constants the rows are used directly;
otherwise `np.eye(6)` has its non-omitted rows overwritten, in order, by
the constants' vectors. -/
def buildMat (rows : List (Fin 6 → ℚ)) : Matrix (Fin 6) (Fin 6) ℚ :=
  if rows.length = 6 then Matrix.of fun i j => (rows.getD i.val 0) j
  else Matrix.of fun i j =>
    if omittedB rows i then (if i = j then 1 else 0)
    else (rows.getD (fillIdx rows i) 0) j

/-- Source: `np.linalg.inv` on a matrix already known to be nonsingular:
`det⁻¹ • adjugate`. -/
def minv (A : Matrix (Fin 6) (Fin 6) ℚ) : Matrix (Fin 6) (Fin 6) ℚ :=
  A.det⁻¹ • A.adjugate

/-- Source: `class UnitSpace`: basis matrix `mat`, cached inverse `U`, constant
names `dic` and constant values `ccs`. -/
structure UnitSpace where
  mat : Matrix (Fin 6) (Fin 6) ℚ
  U : Matrix (Fin 6) (Fin 6) ℚ
  dic : List String
  ccs : List ℝ

/-- The `UnitSpace` value assembled by `UnitSpace.__init__` when no
exception is raised. -/
def mkSpace (cs : List Constant) : UnitSpace :=
  ⟨buildMat (rowsOf cs), minv (buildMat (rowsOf cs)),
    cs.map fun c => c.name, cs.map fun c => c.value⟩

/-- Source: `UnitSpace.__init__` with its two raise sites: `np.vstack` on an empty
list, the sparsity-count check for `m ≠ 6`, and `np.linalg.inv` on a
singular matrix.  `none` models the raised exception. -/
def mkUnitSpace (cs : List Constant) : Option UnitSpace :=
  if cs.isEmpty then none
  else if cs.length = 6 then
    if (buildMat (rowsOf cs)).det = 0 then none else some (mkSpace cs)
  else if (unusedCount (rowsOf cs) : ℤ) = 6 - (cs.length : ℤ) then
    if (buildMat (rowsOf cs)).det = 0 then none else some (mkSpace cs)
  else none

/-- Source: `UnitSpace.__eq__`: exact elementwise equality of the basis matrices. -/
def spaceEq (a b : UnitSpace) : Prop := a.mat = b.mat

/-- Source: `class IUnit(Unit)`: an exponent vector tagged with its `UnitSpace`. -/
structure IUnit where
  vec : Fin 6 → ℚ
  base : UnitSpace

/-- Source: `UnitSpace.unit_convert`: `IUnit(u.vec @ self.U, self)`. -/
def UnitSpace.unitConvert (S : UnitSpace) (u : Unit') : IUnit :=
  ⟨Matrix.vecMul u.vec S.U, S⟩

/-- Source: `IUnit.si`: `Unit(self.vec @ self.base.mat)`. -/
def IUnit.si (iu : IUnit) : Unit' := ⟨Matrix.vecMul iu.vec iu.base.mat⟩

/-- Source: `IUnit.__mul__`: raises `ValueError` when `self.base != o.base`
(`UnitSpace.__eq__` compares the basis matrices elementwise). -/
def imul (a b : IUnit) : Option IUnit :=
  if a.base.mat = b.base.mat then some ⟨a.vec + b.vec, a.base⟩ else none

/-- Source: `IUnit.__truediv__`: same guard as `IUnit.__mul__`. -/
def idiv (a b : IUnit) : Option IUnit :=
  if a.base.mat = b.base.mat then some ⟨a.vec - b.vec, a.base⟩ else none

/-! ## Value conversion -/

/-- The factor `∏ ccs[i] ^ v[i]` used by `value_convert` when `ccs` has
all six entries. -/
noncomputable def prodFactor (ccs : List ℝ) (v : Fin 6 → ℚ) : ℝ :=
  ∏ i : Fin 6, (ccs.getD i.val 0) ^ ((v i : ℚ) : ℝ)

/-- Source: `np.prod(self.ccs ** new_unit.vec)`.  `self.ccs` has shape `(N,)` and
`new_unit.vec` has shape `(6,)`: numpy broadcasting requires `N = 6` or
`N = 1`; any other `N` raises a broadcast `ValueError` (`none`).  For
`N = 1` the single value is broadcast against all six coordinates. -/
noncomputable def convFactor (ccs : List ℝ) (v : Fin 6 → ℚ) : Option ℝ :=
  if ccs.length = 6 then some (prodFactor ccs v)
  else if ccs.length = 1 then
    some (∏ i : Fin 6, (ccs.getD 0 0) ^ ((v i : ℚ) : ℝ))
  else none

/-- Source: `UnitSpace.value_convert`: convert the unit, divide the value by the
conversion factor. -/
noncomputable def UnitSpace.valueConvert (S : UnitSpace) (co : Constant) :
    Option Constant :=
  (convFactor S.ccs (Matrix.vecMul co.unit.vec S.U)).map fun f =>
    ⟨co.name, ⟨Matrix.vecMul co.unit.vec S.U⟩, co.value / f⟩

/-- Source: `UnitSpace.factor`: `value_convert(Constant('', si_unit))` with the
resulting value replaced by its reciprocal (`res.value **= -1`). -/
noncomputable def UnitSpace.factor (S : UnitSpace) (siUnit : Unit') :
    Option Constant :=
  (S.valueConvert ⟨"", siUnit, 1⟩).map fun r => ⟨r.name, r.unit, r.value⁻¹⟩

/-- Source: `UnitSpace.unit_to`: convert the quotient unit `target / origin`. -/
def UnitSpace.unitTo (S : UnitSpace) (origin target : Unit') : IUnit :=
  S.unitConvert (udiv target origin)

/-- Source: `UnitSpace.value_to`: `origin * self.factor(target / origin.unit)`. -/
noncomputable def UnitSpace.valueTo (S : UnitSpace) (origin : Constant)
    (target : Unit') : Option Constant :=
  (S.factor (udiv target origin.unit)).map fun f => cmul origin f

/-! ## Physical constants and the natural-unit spaces -/

/-- Source: `_c = 299792458`. -/
def cVal : ℝ := 299792458
/-- Source: `_hbar = 1.054571817e-34`. -/
noncomputable def hbarVal : ℝ := 1054571817 / 10 ^ 43
/-- Source: `_e = 1.602176634e-19`. -/
noncomputable def eVal : ℝ := 1602176634 / 10 ^ 28
/-- Source: `_kB = 1.380649e-23`. -/
noncomputable def kBVal : ℝ := 1380649 / 10 ^ 29
/-- Source: `_nA = 6.02214076e23`. -/
def nAVal : ℝ := 602214076 * 10 ^ 15
/-- Source: `_g = 6.6743e-11`. -/
noncomputable def gVal : ℝ := 66743 / 10 ^ 15
/-- Source: `_me = 9.10938356e-31`. -/
noncomputable def meVal : ℝ := 910938356 / 10 ^ 39

noncomputable def cC : Constant := ⟨"c", Speed, cVal⟩
noncomputable def hbarC : Constant := ⟨"hbar", Action, hbarVal⟩
noncomputable def gC : Constant := ⟨"G", Gravity, gVal⟩
noncomputable def eC : Constant := ⟨"e", Charge, eVal⟩
noncomputable def kBC : Constant := ⟨"kB", Boltzmann, kBVal⟩
noncomputable def nAC : Constant := ⟨"NA", NA, nAVal⟩
noncomputable def meC : Constant := ⟨"me", M, meVal⟩

noncomputable def planckCs : List Constant := [cC, hbarC, gC, eC, kBC, nAC]
/-- Source: `PlanckUnit = UnitSpace([c_, hbar_, G_, e_, kB_, nA_])`. -/
noncomputable def PlanckUnit : UnitSpace := mkSpace planckCs

noncomputable def naturalMCs : List Constant :=
  [⟨"M", M, 1⟩, cC, hbarC, eC, kBC, nAC]
/-- Source: `NaturalM = UnitSpace([Constant('M', M, 1), c_, hbar_, e_, kB_, nA_])`. -/
noncomputable def NaturalM : UnitSpace := mkSpace naturalMCs

noncomputable def naturalLCs : List Constant :=
  [⟨"L", L, 1⟩, cC, hbarC, eC, kBC, nAC]
/-- Source: `NaturalL = UnitSpace([Constant('L', L, 1), c_, hbar_, e_, kB_, nA_])`. -/
noncomputable def NaturalL : UnitSpace := mkSpace naturalLCs

/-! ## Energy façade -/

/-- Source: `class Energy`: wraps `Constant('', Hamilton, si)`. -/
structure Energy where
  si : Constant

/-- Source: `Energy.__init__(si)`. -/
noncomputable def mkEnergy (x : ℝ) : Energy := ⟨⟨"", Hamilton, x⟩⟩

/-- Source: `Energy.mass`: `NaturalM.value_to(origin=self.si, target=M)`. -/
noncomputable def Energy.mass (E : Energy) : Option Constant :=
  NaturalM.valueTo E.si M

/-- Source: `energy_from_mass(mass)`: wraps
`NaturalM.value_to(origin=Constant('', M, mass), target=Hamilton).value`
in a fresh `Energy`. -/
noncomputable def energyFromMass (mass : ℝ) : Option Energy :=
  (NaturalM.valueTo ⟨"", M, mass⟩ Hamilton).map fun j => mkEnergy j.value

/-! ## Concrete inputs used by witnesses and counterexamples -/

/-- Six base-unit constants of value 1: a valid six-constant set whose
basis matrix is the identity. -/
noncomputable def baseCs : List Constant :=
  [⟨"T", T, 1⟩, ⟨"L", L, 1⟩, ⟨"M", M, 1⟩, ⟨"I", I, 1⟩, ⟨"K", K, 1⟩, ⟨"N", N, 1⟩]

/-- A valid two-constant set (covers T and L, leaving four dimensions
unused, `4 = 6 - 2`). -/
noncomputable def twoCs : List Constant := [⟨"a", T, 1⟩, ⟨"b", L, 1⟩]

/-- A sample constant of dimension M and value 5. -/
noncomputable def cx : Constant := ⟨"x", M, 5⟩

/-- Electron-mass-like constant used in the C8 counterexample. -/
noncomputable def c8 : Constant := ⟨"me", M, 1⟩

/-- The conversion factor at the C5 witness input. -/
noncomputable def f5 : ℝ :=
  prodFactor (mkSpace baseCs).ccs (Matrix.vecMul cx.unit.vec (mkSpace baseCs).U)

/-- The converted constant at the C5 witness input. -/
noncomputable def r5 : Constant :=
  ⟨cx.name, ⟨Matrix.vecMul cx.unit.vec (mkSpace baseCs).U⟩, cx.value / f5⟩

/-! ## Helper lemmas -/

theorem ratTrunc_intCast (n : ℤ) : ratTrunc (n : ℚ) = n := by
  simp [ratTrunc]

theorem minv_mul {A : Matrix (Fin 6) (Fin 6) ℚ} (h : A.det ≠ 0) :
    minv A * A = 1 := by
  rw [minv, Matrix.smul_mul, Matrix.adjugate_mul, smul_smul,
    inv_mul_cancel₀ h, one_smul]

theorem mul_minv {A : Matrix (Fin 6) (Fin 6) ℚ} (h : A.det ≠ 0) :
    A * minv A = 1 := by
  rw [minv, Matrix.mul_smul, Matrix.mul_adjugate, smul_smul,
    inv_mul_cancel₀ h, one_smul]

theorem mkSpace_mat (cs : List Constant) :
    (mkSpace cs).mat = buildMat (rowsOf cs) := rfl

theorem mkSpace_U (cs : List Constant) :
    (mkSpace cs).U = minv (buildMat (rowsOf cs)) := rfl

theorem mkSpace_ccs (cs : List Constant) :
    (mkSpace cs).ccs = cs.map fun c => c.value := rfl

theorem mkUnitSpace_some_eq {cs : List Constant} {S : UnitSpace}
    (h : mkUnitSpace cs = some S) :
    S = mkSpace cs ∧ (buildMat (rowsOf cs)).det ≠ 0 := by
  unfold mkUnitSpace at h
  split_ifs at h with h1 h2 h3 h4 h5
  all_goals simp_all

theorem buildMat_baseCs : buildMat (rowsOf baseCs) = 1 := by
  decide

theorem mkUnitSpace_base : mkUnitSpace baseCs = some (mkSpace baseCs) := by
  have h0 : baseCs.isEmpty = false := rfl
  have hlen : baseCs.length = 6 := rfl
  have hdet : (buildMat (rowsOf baseCs)).det = 1 := by
    rw [buildMat_baseCs, Matrix.det_one]
  unfold mkUnitSpace
  simp [h0, hlen, hdet]

theorem baseSpace_mat : (mkSpace baseCs).mat = 1 := by
  rw [mkSpace]
  exact buildMat_baseCs

theorem baseSpace_U : (mkSpace baseCs).U = 1 := by
  rw [mkSpace]
  show minv (buildMat (rowsOf baseCs)) = 1
  rw [buildMat_baseCs, minv, Matrix.det_one, Matrix.adjugate_one, inv_one,
    one_smul]

theorem baseSpace_ccs : (mkSpace baseCs).ccs = [1, 1, 1, 1, 1, 1] := by
  simp [mkSpace, baseCs]

theorem valueConvert_len6 {S : UnitSpace} (h6 : S.ccs.length = 6) (c : Constant) :
    S.valueConvert c = some ⟨c.name, ⟨Matrix.vecMul c.unit.vec S.U⟩,
      c.value / prodFactor S.ccs (Matrix.vecMul c.unit.vec S.U)⟩ := by
  unfold UnitSpace.valueConvert convFactor
  rw [if_pos h6]
  rfl

theorem getD_ones (i : Fin 6) :
    (([1, 1, 1, 1, 1, 1] : List ℝ).getD i.val 0) = 1 := by
  fin_cases i <;> rfl

theorem prodFactor_ones (v : Fin 6 → ℚ) :
    prodFactor [1, 1, 1, 1, 1, 1] v = 1 := by
  unfold prodFactor
  have h : ∀ i ∈ Finset.univ,
      (([1, 1, 1, 1, 1, 1] : List ℝ).getD (i : Fin 6).val 0) ^ ((v i : ℚ) : ℝ)
        = 1 := by
    intro i _
    rw [getD_ones i, Real.one_rpow]
  rw [Finset.prod_congr rfl h, Finset.prod_const_one]

theorem f5_eq_one : f5 = 1 := by
  unfold f5
  rw [baseSpace_ccs]
  exact prodFactor_ones _

/-! ## Claim theorems -/

/-- C7: for all DimensionVectors `a`, `b` and every integer `n`, the
DimensionVector algebra is componentwise: `product(a,b)` has component
vector `a+b`, `quotient(a,b)` has component vector `a−b`, and `power(a,n)`
has component vector `a` scaled by `n`.  The operations are total
functions `Unit' → Unit' → Unit'` (and `Unit' → ℚ → Unit'`), so there are
no error conditions. -/
theorem unit_algebra_componentwise :
    ∀ (a b : Unit') (n : ℤ) (i : Fin 6),
      (umul a b).vec i = a.vec i + b.vec i ∧
      (udiv a b).vec i = a.vec i - b.vec i ∧
      (upow a (n : ℚ)).vec i = a.vec i * (n : ℚ) := by
  intro a b n i
  refine ⟨rfl, rfl, ?_⟩
  simp [upow, ratTrunc_intCast]

/-- C8 counterexample: raising a constant of dimension M to the
fractional power 1/2 does *not* scale the dimension vector by 1/2 — the
code truncates the exponent with `int(power)` inside `Unit.__pow__`, so
the unit is scaled by `int(1/2) = 0` while the value is raised to the
full power 1/2. -/
theorem constant_pow_frac_cex :
    (cpow c8 (1/2 : ℚ)).unit.vec ≠ fun i => c8.unit.vec i * (1/2 : ℚ) := by
  intro h
  have h2 := congrFun h 2
  have ht : (ratTrunc (1/2 : ℚ) : ℚ) = 0 := by
    have h0 : ratTrunc (1/2 : ℚ) = 0 := by
      norm_num [ratTrunc]
      decide
    rw [h0]
    norm_num
  have hM : c8.unit.vec 2 = 1 := rfl
  rw [show (cpow c8 (1/2 : ℚ)).unit.vec 2
        = c8.unit.vec 2 * (ratTrunc (1/2 : ℚ) : ℚ) from rfl, hM, ht] at h2
  norm_num at h2

/-- C8 amended: for every *integer* power `p` (negative included), the
dimension vector is scaled by `p` and the value is raised to the `p`-th
power; value and unit are updated by the same exponent.  (For fractional
`p` the unit exponent is truncated toward zero while the value keeps the
full power, as the counterexample shows.) -/
theorem constant_pow_int (c : Constant) (n : ℤ) :
    (cpow c (n : ℚ)).unit.vec = (fun i => c.unit.vec i * (n : ℚ)) ∧
    (cpow c (n : ℚ)).value = c.value ^ n := by
  constructor
  · funext i
    simp [cpow, upow, ratTrunc_intCast]
  · show c.value ^ (((n : ℚ) : ℝ)) = c.value ^ n
    rw [Rat.cast_intCast, Real.rpow_intCast]

/-- C9: `product(a,b)` has the product unit, the product value and the
empty (anonymous) name; `quotient(a,b)` has the quotient unit, the
divided value and the empty name.  The code attaches the empty name
unconditionally, which in particular satisfies the claim for operands
that are not the identity scalar. -/
theorem constant_mul_div_spec (a b : Constant) :
    (cmul a b).name = "" ∧ (cmul a b).unit = umul a.unit b.unit ∧
    (cmul a b).value = a.value * b.value ∧
    (cdiv a b).name = "" ∧ (cdiv a b).unit = udiv a.unit b.unit ∧
    (cdiv a b).value = a.value / b.value :=
  ⟨rfl, rfl, rfl, rfl, rfl, rfl⟩

/-- C4: the product or quotient of two BasisUnits raises the
basis-mismatch error (`none`) precisely when the owning UnitSpaces'
basis matrices differ elementwise (`spaceEq` is `UnitSpace.__eq__`,
i.e. exact matrix equality); matrices that are equal in value — even
from distinct UnitSpace objects — compose without error. -/
theorem basis_mismatch_iff (a b : IUnit) :
    (imul a b = none ↔ ¬ spaceEq a.base b.base) ∧
    (idiv a b = none ↔ ¬ spaceEq a.base b.base) := by
  constructor
  · unfold imul spaceEq
    split_ifs with h <;> simp [h]
  · unfold idiv spaceEq
    split_ifs with h <;> simp [h]

/-- C1: for a UnitSpace successfully constructed from a constant set
(six constants, or fewer completed with identity rows), converting any
SI DimensionVector into basis coordinates and projecting back with
`si()` is the identity. -/
theorem unit_convert_si_roundtrip (cs : List Constant) (S : UnitSpace)
    (h : mkUnitSpace cs = some S) (u : Unit') :
    (S.unitConvert u).si = u := by
  obtain ⟨hS, hdet⟩ := mkUnitSpace_some_eq h
  subst hS
  cases u with
  | mk v =>
    show Unit'.mk (Matrix.vecMul (Matrix.vecMul v (mkSpace cs).U) (mkSpace cs).mat) = ⟨v⟩
    congr 1
    rw [Matrix.vecMul_vecMul]
    have hU : (mkSpace cs).U * (mkSpace cs).mat = 1 := minv_mul hdet
    rw [hU, Matrix.vecMul_one]

/-- Witness for C1 at the base constant set and the energy unit. -/
theorem unit_convert_si_roundtrip_w :
    mkUnitSpace baseCs = some (mkSpace baseCs) ∧
    ((mkSpace baseCs).unitConvert Hamilton).si = Hamilton :=
  ⟨mkUnitSpace_base,
    unit_convert_si_roundtrip baseCs (mkSpace baseCs) mkUnitSpace_base Hamilton⟩

/-- C10: basis conversion of a successfully constructed UnitSpace is a
homomorphism of the unit algebra: the coordinates of a product are the
sum of the coordinates and the coordinates of a quotient are their
difference. -/
theorem unit_convert_homomorphism (cs : List Constant) (S : UnitSpace)
    (h : mkUnitSpace cs = some S) (u v : Unit') :
    (S.unitConvert (umul u v)).vec = (S.unitConvert u).vec + (S.unitConvert v).vec ∧
    (S.unitConvert (udiv u v)).vec = (S.unitConvert u).vec - (S.unitConvert v).vec := by
  constructor
  · show Matrix.vecMul (u.vec + v.vec) S.U = _
    rw [Matrix.add_vecMul]
    rfl
  · show Matrix.vecMul (u.vec - v.vec) S.U = _
    rw [Matrix.sub_vecMul]
    rfl

/-- Witness for C10 at the base constant set with the energy and speed
units. -/
theorem unit_convert_homomorphism_w :
    mkUnitSpace baseCs = some (mkSpace baseCs) ∧
    ((mkSpace baseCs).unitConvert (umul Hamilton Speed)).vec =
      ((mkSpace baseCs).unitConvert Hamilton).vec +
        ((mkSpace baseCs).unitConvert Speed).vec ∧
    ((mkSpace baseCs).unitConvert (udiv Hamilton Speed)).vec =
      ((mkSpace baseCs).unitConvert Hamilton).vec -
        ((mkSpace baseCs).unitConvert Speed).vec :=
  ⟨mkUnitSpace_base,
    (unit_convert_homomorphism baseCs (mkSpace baseCs) mkUnitSpace_base
      Hamilton Speed).1,
    (unit_convert_homomorphism baseCs (mkSpace baseCs) mkUnitSpace_base
      Hamilton Speed).2⟩

/-- The error condition asserted by the claim, following its words: for
`N < 6` constants an unused-dimension count different from `6 − N`, or
(for any `N`) a singular assembled basis matrix.  This definition follows
the *claim*, for comparison against the code's `mkUnitSpace`. -/
def specConfigError (cs : List Constant) : Prop :=
  (cs.length < 6 ∧ (unusedCount (rowsOf cs) : ℤ) ≠ 6 - (cs.length : ℤ)) ∨
  (buildMat (rowsOf cs)).det = 0

/-- C3 counterexample: the empty constant set satisfies neither of the
claim's error conditions (all six dimensions are unused, `6 = 6 − 0`, and
the identity-filled matrix is nonsingular), yet construction still raises
(`np.vstack` fails on an empty list). -/
theorem unit_space_empty_cex :
    mkUnitSpace ([] : List Constant) = none ∧ ¬ specConfigError [] := by
  constructor
  · rfl
  · intro hc
    have hd : (buildMat (rowsOf ([] : List Constant))).det = 1 := by
      rw [show buildMat (rowsOf ([] : List Constant)) = 1 from by decide,
        Matrix.det_one]
    rcases hc with ⟨h1, h2⟩ | h
    · exact h2 (by decide)
    · exact one_ne_zero (hd.symm.trans h)

/-- C3 amended: construction raises exactly when the constant list is
empty (the row-stacking step itself fails), or the count `N` of
constants differs from 6 while the number of base dimensions left unused
by every constant is not `6 − N` (for `N > 6` this is always the case,
since `6 − N < 0`), or the assembled 6×6 matrix is singular; otherwise
construction succeeds and the cached `U` is a two-sided inverse of the
basis matrix. -/
theorem unit_space_error_iff (cs : List Constant) :
    (mkUnitSpace cs = none ↔
      cs = [] ∨
      (cs.length ≠ 6 ∧ (unusedCount (rowsOf cs) : ℤ) ≠ 6 - (cs.length : ℤ)) ∨
      (buildMat (rowsOf cs)).det = 0) ∧
    (∀ S, mkUnitSpace cs = some S → S.mat * S.U = 1 ∧ S.U * S.mat = 1) := by
  constructor
  · by_cases h0 : cs.isEmpty
    · have hnil : cs = [] := List.isEmpty_iff.mp h0
      subst hnil
      simp [mkUnitSpace]
    · have hne : ¬ cs = [] := fun hc => h0 (by rw [hc]; rfl)
      by_cases h6 : cs.length = 6
      · by_cases hd : (buildMat (rowsOf cs)).det = 0
        · simp [mkUnitSpace, h0, h6, hd, hne]
        · simp [mkUnitSpace, h0, h6, hd, hne]
      · by_cases hsp : (unusedCount (rowsOf cs) : ℤ) = 6 - (cs.length : ℤ)
        · by_cases hd : (buildMat (rowsOf cs)).det = 0
          · simp [mkUnitSpace, h0, h6, hsp, hd, hne]
          · simp [mkUnitSpace, h0, h6, hsp, hd, hne]
        · simp [mkUnitSpace, h0, h6, hsp, hne]
  · intro S hS
    obtain ⟨hSeq, hdet⟩ := mkUnitSpace_some_eq hS
    subst hSeq
    rw [mkSpace_mat, mkSpace_U]
    exact ⟨mul_minv hdet, minv_mul hdet⟩

/-- Witness for C3 (amended) at the base constant set. -/
theorem unit_space_error_iff_w :
    (mkUnitSpace baseCs = none ↔
      baseCs = [] ∨
      (baseCs.length ≠ 6 ∧
        (unusedCount (rowsOf baseCs) : ℤ) ≠ 6 - (baseCs.length : ℤ)) ∨
      (buildMat (rowsOf baseCs)).det = 0) ∧
    (∀ S, mkUnitSpace baseCs = some S → S.mat * S.U = 1 ∧ S.U * S.mat = 1) :=
  unit_space_error_iff baseCs

/-- C2 counterexample: a UnitSpace validly built from N = 2 constants
(covering T and L; 4 = 6 − 2 dimensions unused), on which `value_convert`
does not return any constant at all: `self.ccs ** new_unit.vec` is a
shape-(2,)-by-shape-(6,) numpy broadcast, which raises. -/
theorem value_convert_broadcast_cex :
    mkUnitSpace twoCs = some (mkSpace twoCs) ∧
    (mkSpace twoCs).valueConvert cx = none := by
  constructor
  · have h0 : twoCs.isEmpty = false := rfl
    have hlen : twoCs.length = 2 := rfl
    have hsp : (unusedCount (rowsOf twoCs) : ℤ) = 6 - (twoCs.length : ℤ) := by
      decide
    have hdet : (buildMat (rowsOf twoCs)).det = 1 := by
      rw [show buildMat (rowsOf twoCs) = 1 from by decide, Matrix.det_one]
    unfold mkUnitSpace
    simp [h0, hlen, hsp, hdet]
  · have hccs : (mkSpace twoCs).ccs.length = 2 := rfl
    unfold UnitSpace.valueConvert convFactor
    rw [if_neg (by rw [hccs]; norm_num), if_neg (by rw [hccs]; norm_num)]
    rfl

/-- C2 amended: for a UnitSpace built from a list of exactly six
constants, `value_convert` returns a constant carrying the original
name, the unit converted to basis coordinates, and the value divided by
the factor `∏ ccs[i] ^ coords[i]` over the six basis constants.  (For
`N < 6` the factor computation raises a numpy broadcast error instead,
except for the degenerate `N = 1` broadcast.) -/
theorem value_convert_six (cs : List Constant) (S : UnitSpace) (c : Constant)
    (hS : mkUnitSpace cs = some S) (h6 : cs.length = 6) :
    S.valueConvert c = some ⟨c.name, ⟨Matrix.vecMul c.unit.vec S.U⟩,
      c.value / ∏ i : Fin 6,
        (S.ccs.getD i.val 0) ^ ((Matrix.vecMul c.unit.vec S.U i : ℚ) : ℝ)⟩ := by
  obtain ⟨hSeq, -⟩ := mkUnitSpace_some_eq hS
  subst hSeq
  have hccs : (mkSpace cs).ccs.length = 6 := by
    rw [mkSpace_ccs, List.length_map, h6]
  exact valueConvert_len6 hccs c

/-- Witness for C2 (amended) at the base constant set. -/
theorem value_convert_six_w :
    (mkSpace baseCs).valueConvert cx = some ⟨cx.name,
      ⟨Matrix.vecMul cx.unit.vec (mkSpace baseCs).U⟩,
      cx.value / ∏ i : Fin 6,
        ((mkSpace baseCs).ccs.getD i.val 0) ^
          ((Matrix.vecMul cx.unit.vec (mkSpace baseCs).U i : ℚ) : ℝ)⟩ :=
  value_convert_six baseCs (mkSpace baseCs) cx mkUnitSpace_base rfl

/-- C5: for a UnitSpace built from a valid constant set and a constant
whose conversion factor exists and is nonzero, multiplying the
natural-unit value produced by `value_convert` by that factor recovers
the original SI value exactly (exact arithmetic model of the float
computation). -/
theorem value_convert_si_consistent (cs : List Constant) (S : UnitSpace)
    (c r : Constant) (f : ℝ)
    (hS : mkUnitSpace cs = some S)
    (hf : convFactor S.ccs (Matrix.vecMul c.unit.vec S.U) = some f)
    (hr : S.valueConvert c = some r)
    (h0 : f ≠ 0) :
    r.value * f = c.value := by
  unfold UnitSpace.valueConvert at hr
  rw [hf, Option.map_some'] at hr
  injection hr with hr
  subst hr
  show c.value / f * f = c.value
  exact div_mul_cancel₀ c.value h0

/-- Witness for C5 at the base constant set and the constant `cx`. -/
theorem value_convert_si_consistent_w : r5.value * f5 = cx.value :=
  value_convert_si_consistent baseCs (mkSpace baseCs) cx r5 f5
    mkUnitSpace_base
    (by unfold convFactor
        rw [if_pos (show (mkSpace baseCs).ccs.length = 6 from rfl)]
        rfl)
    (@valueConvert_len6 (mkSpace baseCs) rfl cx)
    (by rw [f5_eq_one]; norm_num)

theorem natM_ccs : NaturalM.ccs = [1, cVal, hbarVal, eVal, kBVal, nAVal] := rfl

theorem natM_len : NaturalM.ccs.length = 6 := rfl

theorem natM_ccs_pos : ∀ i : Fin 6, 0 < NaturalM.ccs.getD i.val 0 := by
  intro i
  rw [natM_ccs]
  fin_cases i
  · show (0:ℝ) < 1
    norm_num
  · show (0:ℝ) < cVal
    show (0:ℝ) < 299792458
    norm_num
  · show (0:ℝ) < hbarVal
    show (0:ℝ) < 1054571817 / 10 ^ 43
    positivity
  · show (0:ℝ) < eVal
    show (0:ℝ) < 1602176634 / 10 ^ 28
    positivity
  · show (0:ℝ) < kBVal
    show (0:ℝ) < 1380649 / 10 ^ 29
    positivity
  · show (0:ℝ) < nAVal
    show (0:ℝ) < 602214076 * 10 ^ 15
    positivity

theorem prodFactor_pos {ccs : List ℝ} (h : ∀ i : Fin 6, 0 < ccs.getD i.val 0)
    (v : Fin 6 → ℚ) : 0 < prodFactor ccs v := by
  unfold prodFactor
  exact Finset.prod_pos fun i _ => Real.rpow_pos_of_pos (h i) _

theorem prodFactor_neg {ccs : List ℝ} (h : ∀ i : Fin 6, 0 ≤ ccs.getD i.val 0)
    (v : Fin 6 → ℚ) : prodFactor ccs (-v) = (prodFactor ccs v)⁻¹ := by
  unfold prodFactor
  rw [← Finset.prod_inv_distrib]
  refine Finset.prod_congr rfl fun i _ => ?_
  have hcast : (((-v) i : ℚ) : ℝ) = -((v i : ℚ) : ℝ) := by
    rw [show (-v) i = -(v i) from rfl, Rat.cast_neg]
  rw [hcast, Real.rpow_neg (h i)]

theorem valueTo_len6 {S : UnitSpace} (h6 : S.ccs.length = 6)
    (origin : Constant) (target : Unit') :
    S.valueTo origin target = some
      ⟨"", umul origin.unit ⟨Matrix.vecMul (target.vec - origin.unit.vec) S.U⟩,
        origin.value *
          (1 / prodFactor S.ccs
            (Matrix.vecMul (target.vec - origin.unit.vec) S.U))⁻¹⟩ := by
  unfold UnitSpace.valueTo UnitSpace.factor
  rw [valueConvert_len6 h6, Option.map_some', Option.map_some']
  rfl

theorem valueTo_value {S : UnitSpace} (h6 : S.ccs.length = 6)
    (nm : String) (u : Unit') (xv : ℝ) (target : Unit') (r : Constant)
    (h : S.valueTo ⟨nm, u, xv⟩ target = some r) :
    r.value = xv * prodFactor S.ccs (Matrix.vecMul (target.vec - u.vec) S.U) := by
  rw [valueTo_len6 h6] at h
  injection h with h
  subst h
  show xv * (1 / prodFactor S.ccs (Matrix.vecMul (target.vec - u.vec) S.U))⁻¹
    = xv * prodFactor S.ccs (Matrix.vecMul (target.vec - u.vec) S.U)
  rw [one_div, inv_inv]

theorem valueTo_roundtrip {S : UnitSpace} (h6 : S.ccs.length = 6)
    (hpos : ∀ i : Fin 6, 0 < S.ccs.getD i.val 0)
    (a b : Unit') (x : ℝ) (n1 n2 : String) (m j : Constant)
    (hm : S.valueTo ⟨n1, a, x⟩ b = some m)
    (hj : S.valueTo ⟨n2, b, m.value⟩ a = some j) :
    j.value = x := by
  have hmv := valueTo_value h6 n1 a x b m hm
  have hjv := valueTo_value h6 n2 b m.value a j hj
  rw [hjv, hmv]
  have hw : Matrix.vecMul (a.vec - b.vec) S.U
      = -(Matrix.vecMul (b.vec - a.vec) S.U) := by
    rw [← Matrix.neg_vecMul, neg_sub]
  rw [hw, prodFactor_neg (fun i => (hpos i).le)]
  exact mul_inv_cancel_right₀
    (ne_of_gt (prodFactor_pos hpos (Matrix.vecMul (b.vec - a.vec) S.U))) x

/-- C6: for every positive SI energy `x`, converting through the
NaturalM machinery to a rest mass and back with `energy_from_mass`
recovers an Energy whose SI value is exactly `x` (exact-arithmetic model
of the floating computation). -/
theorem energy_mass_roundtrip (x : ℝ) (hx : 0 < x) :
    ((mkEnergy x).mass).bind (fun m => energyFromMass m.value)
      = some (mkEnergy x) := by
  have h6 : NaturalM.ccs.length = 6 := natM_len
  obtain ⟨m, hm⟩ : ∃ m, NaturalM.valueTo ⟨"", Hamilton, x⟩ M = some m :=
    ⟨_, valueTo_len6 h6 _ _⟩
  obtain ⟨j, hj⟩ : ∃ j, NaturalM.valueTo ⟨"", M, m.value⟩ Hamilton = some j :=
    ⟨_, valueTo_len6 h6 _ _⟩
  show (NaturalM.valueTo ⟨"", Hamilton, x⟩ M).bind
    (fun m => energyFromMass m.value) = some (mkEnergy x)
  rw [hm, Option.some_bind]
  show (NaturalM.valueTo ⟨"", M, m.value⟩ Hamilton).map
    (fun j => mkEnergy j.value) = some (mkEnergy x)
  rw [hj, Option.map_some']
  have hjx : j.value = x :=
    valueTo_roundtrip h6 natM_ccs_pos Hamilton M x "" "" m j hm hj
  rw [hjx]

/-- Witness for C6 at `x = 1`. -/
theorem energy_mass_roundtrip_w :
    ((mkEnergy 1).mass).bind (fun m => energyFromMass m.value)
      = some (mkEnergy 1) :=
  energy_mass_roundtrip 1 one_pos

end DA
